import Mathlib

/-!
Shallow embedding of the to-do list manager in src/App.jsx.

The functional core of the app is a set of pure helpers over an ordered
list of task records:
  addTodo, toggle, del, edit, clearCompleted  (list mutations),
  filtered, left                              (view projections),
plus a localStorage adapter (useLocalStorage) that serializes the list
with JSON.stringify and reads it back with JSON.parse inside try/catch.

Machine-level details modelled explicitly:
  - String.prototype.trim is modelled by jsTrim over the ECMAScript
    whitespace set.
  - The id generator (crypto.randomUUID with a Date.now fallback) is an
    environment effect; addTodo takes the generated id as a parameter.
  - JSON.stringify / JSON.parse are platform functions, modelled by
    printJson / parseJson over an explicit Json value type.
-/

/-- ECMAScript WhiteSpace / LineTerminator predicate, the character class
removed by String.prototype.trim: TAB, LF, VT, FF, CR, SP, NBSP, and the
Unicode space separators plus LS, PS and FEFF. -/
def isJsWhitespace (c : Char) : Bool :=
  c.toNat = 9 || c.toNat = 10 || c.toNat = 11 || c.toNat = 12 || c.toNat = 13 ||
  c.toNat = 32 || c.toNat = 0xA0 || c.toNat = 0x1680 ||
  (0x2000 ≤ c.toNat && c.toNat ≤ 0x200A) ||
  c.toNat = 0x2028 || c.toNat = 0x2029 || c.toNat = 0x202F ||
  c.toNat = 0x205F || c.toNat = 0x3000 || c.toNat = 0xFEFF

/-- Character-list version of String.prototype.trim: drop leading
whitespace, then drop trailing whitespace. -/
def jsTrimList (cs : List Char) : List Char :=
  ((cs.dropWhile isJsWhitespace).reverse.dropWhile isJsWhitespace).reverse

/-- Model of JavaScript String.prototype.trim. -/
def jsTrim (s : String) : String :=
  String.mk (jsTrimList s.data)

/-- A task record as built in src/App.jsx (addTodo): an id string, the
task text, and a completion flag. -/
structure Todo where
  id : String
  text : String
  completed : Bool
deriving DecidableEq, Repr

/-- addTodo from src/App.jsx lines 125-135.  The source generates the id
with crypto.randomUUID (falling back to String(Date.now())); that
environment-supplied value is the genId parameter here.
  const t = text.trim(); if (!t) return;
  setTodos((prev) => [{ id, text: t, completed: false }, ...prev]) -/
def addTodo (genId : String) (text : String) (prev : List Todo) : List Todo :=
  let t := jsTrim text
  if t = "" then prev
  else { id := genId, text := t, completed := false } :: prev

/-- toggle from src/App.jsx lines 137-141:
  prev.map((x) => (x.id === id ? { ...x, completed: !x.completed } : x)) -/
def toggle (i : String) (prev : List Todo) : List Todo :=
  prev.map fun x => if x.id = i then { x with completed := !x.completed } else x

/-- del from src/App.jsx lines 143-145:
  prev.filter((x) => x.id !== id) -/
def del (i : String) (prev : List Todo) : List Todo :=
  prev.filter fun x => x.id != i

/-- edit from src/App.jsx lines 147-149:
  prev.map((x) => (x.id === id ? { ...x, text } : x)) -/
def edit (i : String) (t : String) (prev : List Todo) : List Todo :=
  prev.map fun x => if x.id = i then { x with text := t } else x

/-- clearCompleted from src/App.jsx lines 151-153:
  prev.filter((x) => !x.completed) -/
def clearCompleted (prev : List Todo) : List Todo :=
  prev.filter fun x => !x.completed

/-- filtered from src/App.jsx lines 155-164: the switch on the filter
string, with the default branch returning the list itself. -/
def filtered (f : String) (todos : List Todo) : List Todo :=
  if f = "active" then todos.filter fun t => !t.completed
  else if f = "completed" then todos.filter fun t => t.completed
  else todos

/-- left from src/App.jsx line 166: the remaining (active) count. -/
def left (todos : List Todo) : Nat :=
  (todos.filter fun t => !t.completed).length

/-- JSON values, the structured data produced by the platform JSON.parse
and consumed by JSON.stringify.  Numbers are restricted to integers: the
stored task lists contain only strings and booleans, so nothing in the
repository exercises fractional numbers. -/
inductive Json where
  | null : Json
  | bool : Bool → Json
  | num : Int → Json
  | str : String → Json
  | arr : List Json → Json
  | obj : List (String × Json) → Json
deriving Repr

/-- Lowercase hexadecimal digit, as emitted by JSON.stringify escapes. -/
def hexDigitChar (n : Nat) : Char :=
  if n < 10 then Char.ofNat (48 + n) else Char.ofNat (87 + n)

/-- Escape of one character inside a JSON string literal, following
JSON.stringify: quote and backslash are escaped, the named control
characters use their short escapes, remaining control characters use
a \u00xx escape, and everything else is emitted verbatim. -/
def escapeChar (c : Char) : List Char :=
  if c = '"' then ['\\', '"']
  else if c = '\\' then ['\\', '\\']
  else if c = '\x08' then ['\\', 'b']
  else if c = '\x0c' then ['\\', 'f']
  else if c = '\n' then ['\\', 'n']
  else if c = '\r' then ['\\', 'r']
  else if c = '\t' then ['\\', 't']
  else if c.toNat < 32 then
    ['\\', 'u', '0', '0', hexDigitChar (c.toNat / 16), hexDigitChar (c.toNat % 16)]
  else [c]

/-- A JSON string literal: quote, escaped characters, quote. -/
def quoteString (s : String) : List Char :=
  '"' :: ((s.data.map escapeChar).flatten ++ ['"'])

mutual

/-- Model of JSON.stringify (character-list form): no insignificant
whitespace, object fields in property order. -/
def printJson : Json → List Char
  | .str s => quoteString s
  | .arr xs => '[' :: (printArrItems xs ++ [']'])
  | .obj kvs => '\x7b' :: (printObjItems kvs ++ ['\x7d'])
  | .num n => (toString n).data
  | .null => "null".data
  | .bool b => (cond b "true" "false").data

/-- Comma-separated array elements. -/
def printArrItems : List Json → List Char
  | [] => []
  | [x] => printJson x
  | x :: y :: xs => printJson x ++ (',' :: printArrItems (y :: xs))

/-- Comma-separated object fields, each a quoted key, a colon and a value. -/
def printObjItems : List (String × Json) → List Char
  | [] => []
  | [(k, v)] => quoteString k ++ (':' :: printJson v)
  | (k, v) :: kv :: xs =>
    quoteString k ++ (':' :: (printJson v ++ (',' :: printObjItems (kv :: xs))))

end

/-- Model of JSON.stringify as a string-valued function. -/
def jsonStringify (v : Json) : String :=
  String.mk (printJson v)

/-- JSON insignificant whitespace (space, tab, line feed, carriage
return) skipped between tokens by JSON.parse. -/
def skipWs : List Char → List Char
  | c :: cs =>
    if c = ' ' || c = '\t' || c = '\n' || c = '\r' then skipWs cs else c :: cs
  | [] => []

/-- Value of a hexadecimal digit character, if it is one. -/
def hexVal (c : Char) : Option Nat :=
  if 48 ≤ c.toNat ∧ c.toNat ≤ 57 then some (c.toNat - 48)
  else if 97 ≤ c.toNat ∧ c.toNat ≤ 102 then some (c.toNat - 87)
  else if 65 ≤ c.toNat ∧ c.toNat ≤ 70 then some (c.toNat - 55)
  else none

/-- Body of a JSON string literal after the opening quote: consume
characters (resolving escapes) until the closing quote.  Raw control
characters are rejected, as JSON.parse rejects them. -/
def parseStringBody (acc : List Char) : List Char → Option (String × List Char)
  | [] => none
  | c :: rest =>
    if c = '"' then some (String.mk acc.reverse, rest)
    else if c = '\\' then
      match rest with
      | [] => none
      | k :: rest1 =>
        if k = '"' then parseStringBody ('"' :: acc) rest1
        else if k = '\\' then parseStringBody ('\\' :: acc) rest1
        else if k = '/' then parseStringBody ('/' :: acc) rest1
        else if k = 'b' then parseStringBody ('\x08' :: acc) rest1
        else if k = 'f' then parseStringBody ('\x0c' :: acc) rest1
        else if k = 'n' then parseStringBody ('\n' :: acc) rest1
        else if k = 'r' then parseStringBody ('\r' :: acc) rest1
        else if k = 't' then parseStringBody ('\t' :: acc) rest1
        else if k = 'u' then
          match rest1 with
          | a :: b :: c2 :: d :: rest2 =>
            match hexVal a, hexVal b, hexVal c2, hexVal d with
            | some ha, some hb, some hc, some hd =>
              parseStringBody
                (Char.ofNat (((ha * 16 + hb) * 16 + hc) * 16 + hd) :: acc) rest2
            | _, _, _, _ => none
          | _ => none
        else none
    else if c.toNat < 32 then none
    else parseStringBody (c :: acc) rest

/-- Digit run of a JSON number (decimal accumulator). -/
def digitsToNat (acc : Nat) : List Char → Nat × List Char
  | c :: cs =>
    if 48 ≤ c.toNat ∧ c.toNat ≤ 57 then digitsToNat (acc * 10 + (c.toNat - 48)) cs
    else (acc, c :: cs)
  | [] => (acc, [])

/-- Integer subset of the JSON number grammar: optional minus sign and a
digit run.  The repository stores only strings and booleans, so the
fractional and exponent forms are never produced by its writes. -/
def parseNumber (cs : List Char) : Option (Int × List Char) :=
  match cs with
  | '-' :: (c :: rest) =>
    if 48 ≤ c.toNat ∧ c.toNat ≤ 57 then
      some (-(Int.ofNat (digitsToNat 0 (c :: rest)).1), (digitsToNat 0 (c :: rest)).2)
    else none
  | c :: rest =>
    if 48 ≤ c.toNat ∧ c.toNat ≤ 57 then
      some (Int.ofNat (digitsToNat 0 (c :: rest)).1, (digitsToNat 0 (c :: rest)).2)
    else none
  | [] => none

mutual

/-- One JSON value at the head of the input (leading whitespace already
skipped by the caller).  The fuel argument bounds nesting depth; the
top-level entry point supplies more fuel than any parse can consume. -/
def parseValue : Nat → List Char → Option (Json × List Char)
  | 0, _ => none
  | fuel + 1, cs =>
    match cs with
    | 'n' :: 'u' :: 'l' :: 'l' :: rest => some (.null, rest)
    | 't' :: 'r' :: 'u' :: 'e' :: rest => some (.bool true, rest)
    | 'f' :: 'a' :: 'l' :: 's' :: 'e' :: rest => some (.bool false, rest)
    | '"' :: rest =>
      match parseStringBody [] rest with
      | some (s, r) => some (.str s, r)
      | none => none
    | '[' :: rest =>
      match skipWs rest with
      | ']' :: r2 => some (.arr [], r2)
      | r2 => parseArrItems fuel r2 []
    | '\x7b' :: rest =>
      match skipWs rest with
      | '\x7d' :: r2 => some (.obj [], r2)
      | r2 => parseObjItems fuel r2 []
    | c :: rest =>
      if c = '-' ∨ (48 ≤ c.toNat ∧ c.toNat ≤ 57) then
        match parseNumber (c :: rest) with
        | some (n, r) => some (.num n, r)
        | none => none
      else none
    | [] => none

/-- Elements of a non-empty JSON array, accumulated in reverse. -/
def parseArrItems : Nat → List Char → List Json → Option (Json × List Char)
  | 0, _, _ => none
  | fuel + 1, cs, acc =>
    match parseValue fuel cs with
    | none => none
    | some (v, rest) =>
      match skipWs rest with
      | ',' :: r2 => parseArrItems fuel (skipWs r2) (v :: acc)
      | ']' :: r2 => some (.arr (v :: acc).reverse, r2)
      | _ => none

/-- Fields of a non-empty JSON object, accumulated in reverse. -/
def parseObjItems : Nat → List Char → List (String × Json) → Option (Json × List Char)
  | 0, _, _ => none
  | fuel + 1, cs, acc =>
    match cs with
    | '"' :: rest =>
      match parseStringBody [] rest with
      | none => none
      | some (k, r1) =>
        match skipWs r1 with
        | ':' :: r2 =>
          match parseValue fuel (skipWs r2) with
          | none => none
          | some (v, r3) =>
            match skipWs r3 with
            | ',' :: r4 => parseObjItems fuel (skipWs r4) ((k, v) :: acc)
            | '\x7d' :: r4 => some (.obj ((k, v) :: acc).reverse, r4)
            | _ => none
        | _ => none
    | _ => none

end

/-- Model of JSON.parse: parse one value and require only whitespace
after it; any failure is none (the thrown SyntaxError). -/
def parseJson (s : String) : Option Json :=
  match parseValue (s.length + 1) (skipWs s.data) with
  | some (v, rest) => if skipWs rest = [] then some v else none
  | none => none

/-- The read side of useLocalStorage (src/App.jsx lines 5-12): the raw
slot value is a string or null; a falsy raw value (null or the empty
string) yields the initial value, otherwise JSON.parse runs inside
try/catch and a parse failure also yields the initial value. -/
def localStorageLoad (raw : Option String) (initialValue : Json) : Json :=
  match raw with
  | none => initialValue
  | some r =>
    if r = "" then initialValue
    else
      match parseJson r with
      | some v => v
      | none => initialValue

/-- The write side of useLocalStorage (src/App.jsx lines 13-19):
JSON.stringify of the stored value. -/
def localStorageSave (value : Json) : String :=
  jsonStringify value

/-- The JSON value a task record denotes in the JavaScript heap: an
object with the fields in the property order established by addTodo
(id, text, completed), which toggle and edit spreads preserve. -/
def todoToJson (t : Todo) : Json :=
  Json.obj [("id", Json.str t.id), ("text", Json.str t.text),
            ("completed", Json.bool t.completed)]

/-- The JSON value a task list denotes: an array of task objects. -/
def todosToJson (L : List Todo) : Json :=
  Json.arr (L.map todoToJson)

/-- The spec's text invariant: every stored task text is non-empty and
not whitespace-only. -/
def TextInvariant (L : List Todo) : Prop :=
  ∀ r ∈ L, r.text ≠ "" ∧ jsTrim r.text ≠ ""

instance : DecidablePred TextInvariant := fun L =>
  inferInstanceAs (Decidable (∀ r ∈ L, r.text ≠ "" ∧ jsTrim r.text ≠ ""))

/-! ## Helper lemmas about dropWhile and trimming -/

theorem dropWhile_dropWhile (p : Char → Bool) (l : List Char) :
    List.dropWhile p (List.dropWhile p l) = List.dropWhile p l := by
  induction l with
  | nil => rfl
  | cons a t ih =>
    by_cases h : p a
    · simp [List.dropWhile_cons, h, ih]
    · simp [List.dropWhile_cons, h]

theorem dropWhile_head_false (p : Char → Bool) (l : List Char) (c : Char) (t : List Char)
    (h : List.dropWhile p l = c :: t) : p c = false := by
  induction l with
  | nil => simp at h
  | cons a l2 ih =>
    by_cases hp : p a
    · exact ih (by simpa [List.dropWhile_cons, hp] using h)
    · rw [List.dropWhile_cons, if_neg (by simpa using hp)] at h
      cases h
      simpa using hp

theorem jsTrimList_idem (cs : List Char) :
    jsTrimList (jsTrimList cs) = jsTrimList cs := by
  have step1 : List.dropWhile isJsWhitespace (jsTrimList cs) = jsTrimList cs := by
    unfold jsTrimList
    cases hz : ((cs.dropWhile isJsWhitespace).reverse.dropWhile isJsWhitespace).reverse with
    | nil => simp
    | cons c u =>
      obtain ⟨t, ht⟩ :=
        List.dropWhile_suffix (l := (cs.dropWhile isJsWhitespace).reverse) isJsWhitespace
      have h2 : cs.dropWhile isJsWhitespace = c :: (u ++ t.reverse) := by
        have hrev := congrArg List.reverse ht
        simp only [List.reverse_append, List.reverse_reverse] at hrev
        rw [← hrev, hz]
        simp
      have hc : isJsWhitespace c = false := dropWhile_head_false _ _ _ _ h2
      rw [List.dropWhile_cons, if_neg (by simp [hc])]
  calc jsTrimList (jsTrimList cs)
      = (((jsTrimList cs).dropWhile isJsWhitespace).reverse.dropWhile
          isJsWhitespace).reverse := rfl
    _ = ((jsTrimList cs).reverse.dropWhile isJsWhitespace).reverse := by rw [step1]
    _ = jsTrimList cs := by
        show (((((cs.dropWhile isJsWhitespace).reverse.dropWhile
            isJsWhitespace).reverse).reverse).dropWhile isJsWhitespace).reverse = _
        rw [List.reverse_reverse, dropWhile_dropWhile]
        rfl

theorem jsTrim_idem (s : String) : jsTrim (jsTrim s) = jsTrim s := by
  show String.mk (jsTrimList (String.mk (jsTrimList s.data)).data) = _
  rw [show (String.mk (jsTrimList s.data)).data = jsTrimList s.data from rfl,
    jsTrimList_idem]
  rfl

/-! ## C1: addTodo -/

/-- C1: for every list and text input, addTodo with a freshly generated
id (one not present in the list) leaves the list unchanged when the
trimmed text is empty; otherwise the result is one longer, its first
element is a new record with the trimmed text, completed = false and the
fresh id, and the remaining elements are the original list in order. -/
theorem addTodo_spec (prev : List Todo) (s genId : String)
    (hfresh : genId ∉ prev.map Todo.id) :
    (jsTrim s = "" → addTodo genId s prev = prev) ∧
    (jsTrim s ≠ "" →
      (addTodo genId s prev).length = prev.length + 1 ∧
      addTodo genId s prev
        = { id := genId, text := jsTrim s, completed := false } :: prev ∧
      genId ∉ prev.map Todo.id) := by
  refine ⟨fun h => by simp [addTodo, h], fun h => ?_⟩
  simp [addTodo, h, hfresh]

/-- Witness for addTodo_spec at a concrete fresh id and input text. -/
theorem addTodo_spec_witness :
    ("g1" ∉ ([⟨"a", "hi", false⟩] : List Todo).map Todo.id) ∧
    addTodo "g1" " buy milk " [⟨"a", "hi", false⟩]
      = { id := "g1", text := jsTrim " buy milk ", completed := false }
          :: [⟨"a", "hi", false⟩] :=
  ⟨by decide,
   ((addTodo_spec [⟨"a", "hi", false⟩] " buy milk " "g1" (by decide)).2
     (by decide)).2.1⟩

/-! ## C2: toggle changes only the matched completed flag -/

/-- C2: toggle preserves length and order, keeps every record's id and
text unchanged, leaves records with non-matching ids untouched, flips
completed exactly on matching records, and is a no-op when no record
matches the id. -/
theorem toggle_frame (L : List Todo) (i : String) :
    (toggle i L).length = L.length ∧
    (∀ n : Nat, ((toggle i L)[n]?).map Todo.id = (L[n]?).map Todo.id) ∧
    (∀ n : Nat, ((toggle i L)[n]?).map Todo.text = (L[n]?).map Todo.text) ∧
    (∀ n : Nat, ∀ x ∈ L[n]?, x.id ≠ i → (toggle i L)[n]? = some x) ∧
    (∀ n : Nat, ∀ x ∈ L[n]?, x.id = i →
      (toggle i L)[n]? = some { x with completed := !x.completed }) ∧
    (i ∉ L.map Todo.id → toggle i L = L) := by
  refine ⟨by simp [toggle], fun n => ?_, fun n => ?_, fun n x hx hne => ?_,
    fun n x hx heq => ?_, fun hni => ?_⟩
  · rw [toggle, List.getElem?_map]
    cases L[n]? with
    | none => rfl
    | some x => by_cases h : x.id = i <;> simp [h]
  · rw [toggle, List.getElem?_map]
    cases L[n]? with
    | none => rfl
    | some x => by_cases h : x.id = i <;> simp [h]
  · rw [Option.mem_def] at hx
    rw [toggle, List.getElem?_map, hx]
    simp [hne]
  · rw [Option.mem_def] at hx
    rw [toggle, List.getElem?_map, hx]
    simp [heq]
  · rw [toggle]
    conv_rhs => rw [← List.map_id L]
    apply List.map_congr_left
    intro x hx
    have hne : x.id ≠ i := fun he => hni (he ▸ List.mem_map_of_mem Todo.id hx)
    simp [hne]

/-- Witness for toggle_frame: the no-op clause at a concrete list whose
sole id differs from the toggled id. -/
theorem toggle_frame_witness :
    ("z" ∉ ([⟨"a", "hi", false⟩] : List Todo).map Todo.id) ∧
    toggle "z" [⟨"a", "hi", false⟩] = [⟨"a", "hi", false⟩] :=
  ⟨by decide, (toggle_frame [⟨"a", "hi", false⟩] "z").2.2.2.2.2 (by decide)⟩

/-! ## C3: double toggle is the identity -/

/-- C3: applying toggle twice with the same id returns the original
list. -/
theorem toggle_toggle (L : List Todo) (i : String) :
    toggle i (toggle i L) = L := by
  unfold toggle
  rw [List.map_map]
  conv_rhs => rw [← List.map_id L]
  apply List.map_congr_left
  intro x _
  simp only [Function.comp_apply, id_eq]
  cases x with
  | mk xid xtext xc => by_cases h : xid = i <;> simp [h]

/-! ## C10: unrecognized filter strings behave like "all" -/

/-- C10: for every filter string other than "active" and "completed",
the visible projection returns the full list unchanged. -/
theorem filtered_other (f : String) (L : List Todo)
    (h1 : f ≠ "active") (h2 : f ≠ "completed") : filtered f L = L := by
  simp [filtered, h1, h2]

/-- Witness for filtered_other at a concrete unrecognized filter. -/
theorem filtered_other_witness :
    (("bogus" : String) ≠ "active") ∧ (("bogus" : String) ≠ "completed") ∧
    filtered "bogus" [⟨"a", "hi", true⟩] = [⟨"a", "hi", true⟩] :=
  ⟨by decide, by decide, filtered_other "bogus" _ (by decide) (by decide)⟩

/-! ## C4: del -/

theorem del_eq_of_not_mem (L : List Todo) (i : String)
    (hni : i ∉ L.map Todo.id) : del i L = L := by
  rw [del, List.filter_eq_self]
  intro a ha
  rw [bne_iff_ne]
  exact fun he => hni (he ▸ List.mem_map_of_mem Todo.id ha)

theorem del_length_of_mem (L : List Todo) (i : String)
    (hnd : (L.map Todo.id).Nodup) (hmem : i ∈ L.map Todo.id) :
    (del i L).length = L.length - 1 := by
  induction L with
  | nil => simp at hmem
  | cons x xs ih =>
    rw [List.map_cons, List.nodup_cons] at hnd
    by_cases h : x.id = i
    · have hni : i ∉ xs.map Todo.id := h ▸ hnd.1
      rw [del, List.filter_cons, if_neg (by simp [h])]
      rw [show List.filter (fun a => a.id != i) xs = del i xs from rfl,
        del_eq_of_not_mem xs i hni]
      simp
    · have hmem2 : i ∈ xs.map Todo.id := by
        rw [List.map_cons] at hmem
        rcases List.mem_cons.mp hmem with h1 | h1
        · exact absurd h1.symm h
        · exact h1
      have hpos : 0 < xs.length := by
        cases xs with
        | nil => simp at hmem2
        | cons _ _ => simp
      rw [del, List.filter_cons, if_pos (by simp [bne_iff_ne]; exact fun he => h he)]
      rw [show List.filter (fun a => a.id != i) xs = del i xs from rfl,
        List.length_cons, ih hnd.2 hmem2]
      simp only [List.length_cons]
      omega

/-- C4: on a task list with unique ids (the data-model invariant), del
shrinks the length by exactly one when the id is present, is a no-op
when it is absent, and the surviving records are unchanged and keep
their original relative order. -/
theorem del_spec (L : List Todo) (i : String) (hnd : (L.map Todo.id).Nodup) :
    (i ∈ L.map Todo.id → (del i L).length = L.length - 1) ∧
    (i ∉ L.map Todo.id → (del i L).length = L.length ∧ del i L = L) ∧
    (del i L).Sublist L ∧
    (∀ r : Todo, r ∈ del i L ↔ r ∈ L ∧ r.id ≠ i) := by
  refine ⟨del_length_of_mem L i hnd,
    fun h => ⟨by rw [del_eq_of_not_mem L i h], del_eq_of_not_mem L i h⟩,
    List.filter_sublist L, fun r => ?_⟩
  simp [del, List.mem_filter]

/-- Witness for del_spec at a concrete duplicate-free list. -/
theorem del_spec_witness :
    ((([⟨"a", "hi", false⟩, ⟨"b", "yo", true⟩] : List Todo).map Todo.id).Nodup) ∧
    ("a" ∈ ([⟨"a", "hi", false⟩, ⟨"b", "yo", true⟩] : List Todo).map Todo.id →
      (del "a" [⟨"a", "hi", false⟩, ⟨"b", "yo", true⟩]).length
        = ([⟨"a", "hi", false⟩, ⟨"b", "yo", true⟩] : List Todo).length - 1) :=
  ⟨by decide, (del_spec [⟨"a", "hi", false⟩, ⟨"b", "yo", true⟩] "a" (by decide)).1⟩

/-! ## C5: clearCompleted -/

/-- C5: clearCompleted keeps exactly the records with completed = false,
unchanged (same multiplicities) and in their original relative order. -/
theorem clearCompleted_spec (L : List Todo) :
    (clearCompleted L).Sublist L ∧
    (∀ r : Todo, r ∈ clearCompleted L ↔ r ∈ L ∧ r.completed = false) ∧
    (∀ r : Todo, List.count r (clearCompleted L)
      = if r.completed = true then 0 else List.count r L) := by
  refine ⟨List.filter_sublist L, fun r => ?_, fun r => ?_⟩
  · simp [clearCompleted, List.mem_filter]
  · by_cases h : r.completed
    · rw [if_pos h, List.count_eq_zero]
      intro hmem
      have h2 := (List.mem_filter.mp hmem).2
      simp [h] at h2
    · rw [if_neg h]
      exact List.count_filter (by simp [h])

/-- Witness for clearCompleted_spec: order/content of the survivors at a
concrete list. -/
theorem clearCompleted_spec_witness :
    ⟨"a", "hi", false⟩ ∈ clearCompleted [⟨"a", "hi", false⟩, ⟨"b", "yo", true⟩] ↔
      (⟨"a", "hi", false⟩ : Todo) ∈
          ([⟨"a", "hi", false⟩, ⟨"b", "yo", true⟩] : List Todo) ∧
        (⟨"a", "hi", false⟩ : Todo).completed = false :=
  (clearCompleted_spec [⟨"a", "hi", false⟩, ⟨"b", "yo", true⟩]).2.1 ⟨"a", "hi", false⟩

/-! ## C6: the active/completed filters partition the list -/

/-- C6: no record is visible under both the "active" and the "completed"
filter, together the two projections are a permutation of the list (the
combined multiset equals the list), and the "all" filter is the
identity. -/
theorem filtered_partition (L : List Todo) :
    (∀ r : Todo, ¬(r ∈ filtered "active" L ∧ r ∈ filtered "completed" L)) ∧
    (filtered "active" L ++ filtered "completed" L).Perm L ∧
    filtered "all" L = L := by
  have hact : filtered "active" L = L.filter (fun t => !t.completed) := by
    simp [filtered]
  have hcom : filtered "completed" L = L.filter (fun t => t.completed) := by
    simp [filtered]
  refine ⟨fun r h => ?_, ?_, by simp [filtered]⟩
  · obtain ⟨h1, h2⟩ := h
    rw [hact] at h1
    rw [hcom] at h2
    have e1 := (List.mem_filter.mp h1).2
    have e2 := (List.mem_filter.mp h2).2
    simp [e2] at e1
  · rw [hact, hcom]
    have h := List.filter_append_perm (fun t => !t.completed) L
    have e : L.filter (fun x => !(!x.completed)) = L.filter (fun t => t.completed) :=
      List.filter_congr (fun a _ => by simp)
    rwa [e] at h

/-- Witness for filtered_partition: the identity clause at a concrete
list. -/
theorem filtered_partition_witness :
    filtered "all" [⟨"a", "hi", false⟩, ⟨"b", "yo", true⟩]
      = [⟨"a", "hi", false⟩, ⟨"b", "yo", true⟩] :=
  (filtered_partition [⟨"a", "hi", false⟩, ⟨"b", "yo", true⟩]).2.2

/-! ## C9: the text invariant -/

/-- C9 counterexample: edit stores its text argument verbatim (src/App.jsx
line 148), so editing an existing record to the empty string leaves an
empty text in the list, breaking the invariant the claim asserts for
arbitrary edit arguments. -/
theorem edit_breaks_text_invariant :
    TextInvariant [⟨"a", "hi", false⟩] ∧
    edit "a" "" [⟨"a", "hi", false⟩] = [⟨"a", "", false⟩] ∧
    ¬ TextInvariant (edit "a" "" [⟨"a", "hi", false⟩]) := by
  decide

/-- C9 amended: the text invariant holds of the empty list and is
preserved by addTodo, toggle, del and clearCompleted for every input,
and by edit whenever the supplied text is not empty or whitespace-only
(the precondition the Interactive Surface enforces before calling
edit). -/
theorem text_invariant_preserved (L : List Todo) (i s t genId : String)
    (hL : TextInvariant L) :
    TextInvariant ([] : List Todo) ∧
    TextInvariant (addTodo genId s L) ∧
    TextInvariant (toggle i L) ∧
    TextInvariant (del i L) ∧
    TextInvariant (clearCompleted L) ∧
    (jsTrim t ≠ "" → TextInvariant (edit i t L)) := by
  refine ⟨fun r hr => absurd hr (List.not_mem_nil r), ?_, ?_, ?_, ?_, ?_⟩
  · intro r hr
    by_cases h : jsTrim s = ""
    · rw [show addTodo genId s L = L by simp [addTodo, h]] at hr
      exact hL r hr
    · rw [show addTodo genId s L
          = { id := genId, text := jsTrim s, completed := false } :: L by
        simp [addTodo, h]] at hr
      rcases List.mem_cons.mp hr with rfl | hr2
      · exact ⟨h, by rw [jsTrim_idem]; exact h⟩
      · exact hL r hr2
  · intro r hr
    obtain ⟨x, hx, rfl⟩ := List.mem_map.mp hr
    by_cases h : x.id = i <;> simpa [h] using hL x hx
  · intro r hr
    exact hL r (List.mem_filter.mp hr).1
  · intro r hr
    exact hL r (List.mem_filter.mp hr).1
  · intro ht r hr
    obtain ⟨x, hx, rfl⟩ := List.mem_map.mp hr
    by_cases h : x.id = i
    · have htne : t ≠ "" := fun he => ht (by rw [he]; rfl)
      simpa [h] using And.intro htne ht
    · simpa [h] using hL x hx

/-- Witness for text_invariant_preserved: the edit clause at a concrete
list and non-empty replacement text. -/
theorem text_invariant_preserved_witness :
    TextInvariant ([⟨"a", "hi", false⟩] : List Todo) ∧
    (jsTrim "new text" ≠ "" →
      TextInvariant (edit "a" "new text" [⟨"a", "hi", false⟩])) :=
  ⟨by decide,
   (text_invariant_preserved [⟨"a", "hi", false⟩] "a" "s" "new text" "g"
     (by decide)).2.2.2.2.2⟩

/-! ## The JSON round trip (C7) and the load fallback policy (C8) -/

theorem hexVal_hexDigitChar : ∀ n : Nat, n < 16 → hexVal (hexDigitChar n) = some n := by decide

theorem escapeChar_step (c : Char) (acc tail : List Char) :
    parseStringBody acc (escapeChar c ++ tail) = parseStringBody (c :: acc) tail := by
  by_cases h1 : c = '"'
  · subst h1; simp only [escapeChar]; norm_num; rw [parseStringBody.eq_def]; simp
  · by_cases h2 : c = '\\'
    · subst h2; simp only [escapeChar]; norm_num; rw [parseStringBody.eq_def]; simp
    · by_cases h3 : c = '\x08'
      · subst h3; simp only [escapeChar]; norm_num; rw [parseStringBody.eq_def]; simp
      · by_cases h4 : c = '\x0c'
        · subst h4; simp only [escapeChar]; norm_num; rw [parseStringBody.eq_def]; simp
        · by_cases h5 : c = '\n'
          · subst h5; simp only [escapeChar]; norm_num; rw [parseStringBody.eq_def]; simp
          · by_cases h6 : c = '\r'
            · subst h6; simp only [escapeChar]; norm_num; rw [parseStringBody.eq_def]; simp
            · by_cases h7 : c = '\t'
              · subst h7; simp only [escapeChar]; norm_num; rw [parseStringBody.eq_def]; simp
              · by_cases hlt : c.toNat < 32
                · rw [show escapeChar c = ['\\', 'u', '0', '0',
                      hexDigitChar (c.toNat / 16), hexDigitChar (c.toNat % 16)] from by
                    simp [escapeChar, h1, h2, h3, h4, h5, h6, h7, hlt]]
                  have hdiv : c.toNat / 16 < 16 := by omega
                  have hmod : c.toNat % 16 < 16 := Nat.mod_lt _ (by norm_num)
                  simp only [List.cons_append, List.nil_append]
                  rw [parseStringBody.eq_def]
                  simp only [hexVal_hexDigitChar _ hdiv, hexVal_hexDigitChar _ hmod,
                    show hexVal '0' = some 0 from by decide]
                  simp only [show ((0 * 16 + 0) * 16 + c.toNat / 16) * 16 + c.toNat % 16
                      = c.toNat from by omega, Char.ofNat_toNat]
                  simp
                · rw [show escapeChar c = [c] from by
                    simp [escapeChar, h1, h2, h3, h4, h5, h6, h7, hlt]]
                  simp only [List.cons_append, List.nil_append]
                  rw [parseStringBody.eq_def]
                  simp [h1, h2, hlt]

theorem parseStringBody_escList (l : List Char) : ∀ (acc rest : List Char),
    parseStringBody acc ((l.map escapeChar).flatten ++ ('"' :: rest))
      = some (String.mk (acc.reverse ++ l), rest) := by
  induction l with
  | nil =>
    intro acc rest
    simp only [List.map_nil, List.flatten_nil, List.nil_append]
    rw [parseStringBody.eq_def]
    simp
  | cons c l2 ih =>
    intro acc rest
    simp only [List.map_cons, List.flatten_cons, List.append_assoc]
    rw [escapeChar_step, ih]
    simp

theorem parseValue_quoteString (fuel : Nat) (s : String) (rest : List Char) :
    parseValue (fuel + 1) (quoteString s ++ rest) = some (.str s, rest) := by
  rw [show quoteString s ++ rest
      = '"' :: ((s.data.map escapeChar).flatten ++ ('"' :: rest)) from by
    simp [quoteString]]
  rw [parseValue.eq_def]
  simp only [parseStringBody_escList]
  simp [String.ext rfl]

theorem quoteString_append (k : String) (X : List Char) :
    quoteString k ++ X = '"' :: ((k.data.map escapeChar).flatten ++ ('"' :: X)) := by
  simp [quoteString]

theorem parseStringBody_concrete (k : String) (r : List Char) :
    parseStringBody [] ((k.data.map escapeChar).flatten ++ ('"' :: r)) = some (k, r) := by
  rw [parseStringBody_escList]
  simp [String.ext rfl]

theorem parseValue_strVal (fuel : Nat) (hf : fuel ≠ 0) (s : String) (rest : List Char) :
    parseValue fuel ('"' :: ((s.data.map escapeChar).flatten ++ ('"' :: rest)))
      = some (.str s, rest) := by
  obtain ⟨g, rfl⟩ : ∃ g, fuel = g + 1 := ⟨fuel - 1, by omega⟩
  rw [← quoteString_append]
  exact parseValue_quoteString g s rest

theorem parseValue_bool (fuel : Nat) (hf : fuel ≠ 0) (b : Bool) (rest : List Char) :
    parseValue fuel (printJson (.bool b) ++ rest) = some (.bool b, rest) := by
  obtain ⟨g, rfl⟩ : ∃ g, fuel = g + 1 := ⟨fuel - 1, by omega⟩
  cases b
  · rw [show printJson (.bool false) = ['f', 'a', 'l', 's', 'e'] from rfl]
    rw [parseValue.eq_def]
    simp
  · rw [show printJson (.bool true) = ['t', 'r', 'u', 'e'] from rfl]
    rw [parseValue.eq_def]
    simp

theorem skipWs_not (c : Char) (h : (c = ' ' || c = '\t' || c = '\n' || c = '\r') = false)
    (cs : List Char) : skipWs (c :: cs) = c :: cs := by
  rw [skipWs.eq_def]
  simp [h]

theorem parseKeyId (r : List Char) :
    parseStringBody [] ('i' :: 'd' :: '"' :: r) = some ("id", r) := by
  simpa [escapeChar] using parseStringBody_concrete "id" r

theorem parseKeyText (r : List Char) :
    parseStringBody [] ('t' :: 'e' :: 'x' :: 't' :: '"' :: r) = some ("text", r) := by
  simpa [escapeChar] using parseStringBody_concrete "text" r

theorem parseKeyCompleted (r : List Char) :
    parseStringBody []
      ('c' :: 'o' :: 'm' :: 'p' :: 'l' :: 'e' :: 't' :: 'e' :: 'd' :: '"' :: r)
      = some ("completed", r) := by
  simpa [escapeChar] using parseStringBody_concrete "completed" r

theorem parseValue_todoObj (fuel : Nat) (hf : 5 ≤ fuel) (t : Todo) (rest : List Char) :
    parseValue fuel (printJson (todoToJson t) ++ rest) = some (todoToJson t, rest) := by
  obtain ⟨m, rfl⟩ : ∃ m, fuel = m + 5 := ⟨fuel - 5, by omega⟩
  obtain ⟨tid, ttext, tc⟩ := t
  cases tc <;>
    (simp only [todoToJson, printJson, printObjItems, quoteString, List.cons_append,
       List.nil_append, List.append_assoc]
     rw [show m + 5 = (m + 4) + 1 from rfl, parseValue.eq_def]
     simp [escapeChar]
     rw [skipWs_not _ (by decide), show m + 4 = (m + 3) + 1 from rfl]
     simp
     rw [parseObjItems.eq_def]
     simp only [parseKeyId]
     rw [skipWs_not _ (by decide)]
     simp only []
     rw [skipWs_not _ (by decide), parseValue_strVal (m + 3) (by omega)]
     simp only []
     rw [skipWs_not _ (by decide)]
     simp only []
     rw [skipWs_not _ (by decide), show m + 3 = (m + 2) + 1 from rfl, parseObjItems.eq_def]
     simp only [parseKeyText]
     rw [skipWs_not _ (by decide)]
     simp only []
     rw [skipWs_not _ (by decide), parseValue_strVal (m + 2) (by omega)]
     simp only []
     rw [skipWs_not _ (by decide)]
     simp only []
     rw [skipWs_not _ (by decide), show m + 2 = (m + 1) + 1 from rfl, parseObjItems.eq_def]
     simp only [parseKeyCompleted]
     rw [skipWs_not _ (by decide)]
     simp only []
     rw [skipWs_not _ (by decide), parseValue.eq_def]
     simp only []
     rw [skipWs_not _ (by decide)]
     simp)

theorem printArrItems_todos_head (t : Todo) (ts : List Todo) :
    ∃ tail, printArrItems ((t :: ts).map todoToJson) = '\x7b' :: tail := by
  cases ts with
  | nil =>
    refine ⟨printObjItems [("id", .str t.id), ("text", .str t.text),
      ("completed", .bool t.completed)] ++ ['\x7d'], ?_⟩
    simp [printArrItems, printJson, todoToJson]
  | cons t2 ts2 =>
    refine ⟨(printObjItems [("id", .str t.id), ("text", .str t.text),
        ("completed", .bool t.completed)] ++ ['\x7d'])
      ++ (',' :: printArrItems ((t2 :: ts2).map todoToJson)), ?_⟩
    simp [printArrItems, printJson, todoToJson]

theorem printTodoObj_length (t : Todo) : 7 ≤ (printJson (todoToJson t)).length := by
  obtain ⟨tid, ttext, tc⟩ := t
  cases tc <;>
    (simp [printJson, todoToJson, printObjItems, quoteString, List.length_append]
     omega)

theorem printArrItems_todos_length (t : Todo) (ts : List Todo) :
    ts.length + 4 ≤ (printArrItems ((t :: ts).map todoToJson)).length := by
  induction ts generalizing t with
  | nil =>
    have := printTodoObj_length t
    simp only [List.map_cons, List.map_nil, printArrItems, List.length_nil]
    omega
  | cons t2 ts2 ih =>
    have h1 := printTodoObj_length t
    have h2 := ih t2
    simp only [List.map_cons, printArrItems, List.length_append, List.length_cons] at h2 ⊢
    omega

theorem parseArrItems_todos (ts : List Todo) : ∀ (t : Todo) (acc : List Json)
    (rest : List Char) (fuel : Nat), ts.length + 6 ≤ fuel →
    parseArrItems fuel (printArrItems ((t :: ts).map todoToJson) ++ (']' :: rest)) acc
      = some (.arr (acc.reverse ++ (t :: ts).map todoToJson), rest) := by
  induction ts with
  | nil =>
    intro t acc rest fuel hf
    obtain ⟨m, rfl⟩ : ∃ m, fuel = m + 6 := ⟨fuel - 6, by omega⟩
    rw [show printArrItems ([t].map todoToJson) = printJson (todoToJson t) from by
      simp [printArrItems]]
    rw [show m + 6 = (m + 5) + 1 from rfl, parseArrItems.eq_def]
    simp only []
    rw [parseValue_todoObj (m + 5) (by omega)]
    simp only []
    rw [skipWs_not _ (by decide)]
    simp
  | cons t2 ts2 ih =>
    intro t acc rest fuel hf
    obtain ⟨m, rfl⟩ : ∃ m, fuel = m + (ts2.length + 7) :=
      ⟨fuel - (ts2.length + 7), by simp at hf ⊢; omega⟩
    rw [show printArrItems ((t :: t2 :: ts2).map todoToJson)
        = printJson (todoToJson t)
            ++ (',' :: printArrItems ((t2 :: ts2).map todoToJson)) from by
      simp [printArrItems]]
    rw [List.append_assoc]
    rw [show m + (ts2.length + 7) = (m + ts2.length + 6) + 1 from by omega]
    rw [parseArrItems.eq_def]
    simp only []
    rw [parseValue_todoObj (m + ts2.length + 6) (by omega)]
    simp only [List.cons_append]
    rw [skipWs_not _ (by decide)]
    simp only []
    obtain ⟨tail, htail⟩ := printArrItems_todos_head t2 ts2
    rw [htail, List.cons_append, skipWs_not _ (by decide), ← List.cons_append, ← htail]
    rw [ih t2 (todoToJson t :: acc) rest _ (by omega)]
    simp

theorem parseJson_stringify_todos (L : List Todo) :
    parseJson (jsonStringify (todosToJson L)) = some (todosToJson L) := by
  cases L with
  | nil => rfl
  | cons t ts =>
    rw [show jsonStringify (todosToJson (t :: ts))
        = String.mk ('[' :: (printArrItems ((t :: ts).map todoToJson) ++ [']'])) from by
      simp [jsonStringify, printJson, todosToJson]]
    simp only [parseJson]
    rw [skipWs_not _ (by decide)]
    rw [parseValue.eq_def]
    simp only []
    obtain ⟨tail, htail⟩ := printArrItems_todos_head t ts
    rw [htail, List.cons_append, skipWs_not _ (by decide)]
    simp
    rw [← List.cons_append, ← htail]
    rw [parseArrItems_todos ts t [] [] _
      (by have h1 := printArrItems_todos_length t ts
          have h2 : (printArrItems (List.map todoToJson (t :: ts))).length
              = tail.length + 1 := by rw [htail]; rfl
          omega)]
    simp [todosToJson, show skipWs [] = [] from rfl]

theorem todoToJson_injective : Function.Injective todoToJson := by
  intro a b h
  obtain ⟨a1, a2, a3⟩ := a
  obtain ⟨b1, b2, b3⟩ := b
  simp [todoToJson] at h
  simp [h.1, h.2.1, h.2.2]

theorem todosToJson_injective (L1 L2 : List Todo)
    (h : todosToJson L1 = todosToJson L2) : L1 = L2 := by
  simp only [todosToJson, Json.arr.injEq] at h
  exact List.map_injective_iff.mpr todoToJson_injective h

/-- C7: a successful save of a well-formed task list followed by a fresh
load returns the stored list exactly: the loaded JSON value is the list's
JSON image, and that image determines the list uniquely (so the
serialize-then-parse round trip is the identity on task lists). -/
theorem save_load_round_trip (L : List Todo) :
    localStorageLoad (some (localStorageSave (todosToJson L))) (Json.arr [])
      = todosToJson L ∧
    (∀ L2 : List Todo, todosToJson L2 = todosToJson L → L2 = L) := by
  refine ⟨?_, fun L2 h => todosToJson_injective L2 L h⟩
  have hne : jsonStringify (todosToJson L) ≠ "" := by
    intro he
    have hd : (jsonStringify (todosToJson L)).data
        = '[' :: (printArrItems (L.map todoToJson) ++ [']']) := by
      simp [jsonStringify, printJson, todosToJson]
    rw [he] at hd
    simp at hd
  simp only [localStorageLoad, localStorageSave]
  rw [if_neg hne, parseJson_stringify_todos]

/-- Witness for save_load_round_trip at a concrete one-element list. -/
theorem save_load_round_trip_witness :
    localStorageLoad
        (some (localStorageSave (todosToJson [⟨"a", "buy milk", false⟩])))
        (Json.arr [])
      = todosToJson [⟨"a", "buy milk", false⟩] :=
  (save_load_round_trip [⟨"a", "buy milk", false⟩]).1

/-- C8 counterexample: the stored raw value "true" parses successfully as
a JSON boolean, a shape incompatible with a task-record array, yet load
returns that boolean rather than the supplied default: useLocalStorage
performs no shape validation after JSON.parse (src/App.jsx line 8). -/
theorem load_returns_incompatible_value :
    localStorageLoad (some "true") (Json.arr []) = Json.bool true ∧
    Json.bool true ≠ Json.arr [] :=
  ⟨rfl, by simp⟩

/-- C8 amended: load returns the default when the medium has no entry,
when the raw value is empty, or when parsing fails, and it never raises
(it is a total function); but when the raw value parses successfully,
load returns the parsed value whatever its shape, including values that
are not task-record arrays. -/
theorem localStorageLoad_spec (r : String) (d v : Json) :
    localStorageLoad none d = d ∧
    (parseJson r = none → localStorageLoad (some r) d = d) ∧
    (parseJson r = some v → localStorageLoad (some r) d = v) := by
  refine ⟨rfl, fun h => ?_, fun h => ?_⟩
  · by_cases hr : r = ""
    · simp [localStorageLoad, hr]
    · simp [localStorageLoad, hr, h]
  · by_cases hr : r = ""
    · rw [hr] at h
      exact absurd h (by rw [show parseJson "" = none from rfl]; simp)
    · simp [localStorageLoad, hr, h]

/-- Witness for localStorageLoad_spec: a parse failure falling back to
the default and a successful non-array parse being returned. -/
theorem localStorageLoad_spec_witness :
    (parseJson "nonsense" = none ∧
      localStorageLoad (some "nonsense") (Json.arr []) = Json.arr []) ∧
    (parseJson "true" = some (Json.bool true) ∧
      localStorageLoad (some "true") (Json.arr []) = Json.bool true) :=
  ⟨⟨rfl, (localStorageLoad_spec "nonsense" (Json.arr []) Json.null).2.1 rfl⟩,
   ⟨rfl, (localStorageLoad_spec "true" (Json.arr []) (Json.bool true)).2.2 rfl⟩⟩
